import Mathlib

/-!
Shallow embedding of the client-side persistence layer of the
documentation-builder web application and proofs about its specified
behaviour.  The embedding covers:

* the IndexedDB asset store (`saveAsset`, `getAsset`, `deleteAsset`,
  `listAllAssets`, `getAssetsByIds`, `clearAllAssets`, `runTransaction`,
  `openDatabase`, `blobToDataUrl`, `dataUrlToBlob`);
* the backup utilities (`importBackup`, `restoreBackup`,
  `startAutoBackup`'s snapshot/eviction step);
* the auth hook's bounded retry loop (`signIn` / `signUp`).

Pure data is translated to Lean values, stateful browser APIs
(IndexedDB, localStorage) to explicit state passing, promises to
explicit outcome values, and machine integers to `Nat`.
-/

namespace DocBuilder

/-! ### Browser data model -/

/-- A binary blob as the browser sees it: the raw byte values (each `< 256`)
together with its MIME type string.  The `Blob` constructor of the platform
normalizes the type (see `normalizeBlobType`); a `Blob` obtained from the
platform therefore always carries a normalized type. -/
structure Blob where
  bytes : List Nat
  type : String
  deriving Repr, DecidableEq

/-- The `size` getter of a blob: its number of bytes. -/
def Blob.size (b : Blob) : Nat := b.bytes.length

/-- Platform `Blob` constructor type normalization: a type with any character
outside U+0020..U+007E becomes the empty string, otherwise it is lowercased. -/
def normalizeBlobType (t : String) : String :=
  if t.data.all (fun c => 0x20 ≤ c.toNat && c.toNat ≤ 0x7E) then
    String.mk (t.data.map Char.toLower)
  else ""

/-! ### Asset store data model (`StoredAssetMetadata`, `StoredAssetRecord`) -/

/-- Metadata stored with every asset (source interface `StoredAssetMetadata`). -/
structure StoredAssetMetadata where
  id : String
  name : String
  type : String
  size : Nat
  createdAt : Nat
  updatedAt : Nat
  deriving Repr, DecidableEq

/-- The full record kept in the object store (source interface
`StoredAssetRecord`): the metadata plus the blob itself. -/
structure StoredAssetRecord extends StoredAssetMetadata where
  blob : Blob
  deriving Repr, DecidableEq

/-- The one object store is keyed by `id` (`keyPath: "id"`); we model its
contents as a list of records.  `store.get(id)` returns the record with the
given key, if any. -/
def storeGet (s : List StoredAssetRecord) (id : String) : Option StoredAssetRecord :=
  s.find? (fun r => r.id == id)

/-- `store.put(record)` under `keyPath: "id"`: replace the record with the
same key if one exists, otherwise insert. -/
def storePut (s : List StoredAssetRecord) (r : StoredAssetRecord) : List StoredAssetRecord :=
  s.filter (fun x => !(x.id == r.id)) ++ [r]

/-- `store.delete(id)`: remove the record with the given key. -/
def storeDelete (s : List StoredAssetRecord) (id : String) : List StoredAssetRecord :=
  s.filter (fun x => !(x.id == id))

/-! ### JavaScript helpers -/

/-- JavaScript `o || d` on a possibly-`undefined` string: falls through to the
default on `undefined` and on the falsy empty string. -/
def jsOrStr (o : Option String) (d : String) : String :=
  match o with
  | some s => if s = "" then d else s
  | none => d

/-- JavaScript truthiness of a possibly-`undefined` string (`undefined` and
`""` are falsy, every other string is truthy). -/
def jsTruthyStr (o : Option String) : Bool :=
  match o with
  | some s => s ≠ ""
  | none => false

/-! ### `saveAsset` -/

/-- The options bag accepted by `saveAsset` (all fields optional). -/
structure SaveOptions where
  id : Option String
  name : Option String
  type : Option String
  createdAt : Option Nat
  updatedAt : Option Nat
  deriving Repr, DecidableEq

/-- One request issued against the object store inside a transaction body. -/
inductive StoreReq where
  | get (id : String)
  | put (id : String)
  | del (id : String)
  | getAll
  | clear
  deriving Repr, DecidableEq

/-- Result of `saveAsset`: the metadata returned to the caller, the store
contents after the transaction, and the requests issued inside it. -/
structure SaveResult where
  meta : StoredAssetMetadata
  store : List StoredAssetRecord
  reqs : List StoreReq
  deriving Repr, DecidableEq

/-- Shallow embedding of `saveAsset`.  Inputs beyond the source arguments make
the ambient effects explicit: `fileName` is the `name` property when the blob
is a `File` (`"name" in file`), `generatedId` is the value `generateId()`
would produce, and `now` is `Date.now()` captured at the start of the call.

`saveRecord` is the record `saveAsset` constructs: `id = options.id ??
generateId()`; the existing record is looked up only when `options.id` is
truthy; `createdAt = options.createdAt ?? existing?.createdAt ?? now`;
`updatedAt = options.updatedAt ?? now`. -/
def saveRecord (store : List StoredAssetRecord) (file : Blob) (fileName : Option String)
    (options : SaveOptions) (generatedId : String) (now : Nat) : StoredAssetRecord :=
  let id := options.id.getD generatedId
  let existing : Option StoredAssetRecord :=
    if jsTruthyStr options.id then storeGet store id else none
  let createdAt :=
    match options.createdAt, existing with
    | some c, _ => c
    | none, some e => e.createdAt
    | none, none => now
  let updatedAt := options.updatedAt.getD now
  { id := id
    name := jsOrStr options.name (fileName.getD "asset")
    type := jsOrStr options.type (if file.type = "" then "application/octet-stream" else file.type)
    size := file.size
    createdAt := createdAt
    updatedAt := updatedAt
    blob := file }

/-- The transaction body of `saveAsset` around `saveRecord`: the record is
written with `store.put` and the metadata (record minus blob) returned. -/
def saveAsset (store : List StoredAssetRecord) (file : Blob) (fileName : Option String)
    (options : SaveOptions) (generatedId : String) (now : Nat) : SaveResult :=
  let record := saveRecord store file fileName options generatedId now
  { meta := record.toStoredAssetMetadata
    store := storePut store record
    reqs := (if jsTruthyStr options.id then [StoreReq.get record.id] else [])
      ++ [StoreReq.put record.id] }

/-! ### `runTransaction` promise wiring -/

/-- Transaction modes. -/
inductive TxMode where
  | readonly
  | readwrite
  deriving Repr, DecidableEq

/-- The terminal event the transaction fires once the executor has finished
successfully: `oncomplete`, `onabort` (with the transaction's possibly-null
`error`), or `onerror` (likewise). -/
inductive TxEvent where
  | complete
  | abortEvent (err : Option String)
  | errorEvent (err : Option String)
  deriving Repr, DecidableEq

/-- How the promise returned by `runTransaction` settles. -/
inductive TxOutcome (α : Type) where
  | resolved (a : α)
  | rejected (err : String)
  deriving Repr, DecidableEq

/-- Observable result of one `runTransaction` call: how its promise settles
and whether the failure path invoked `tx.abort()`. -/
structure TxRun (α : Type) where
  outcome : TxOutcome α
  abortCalled : Bool
  deriving Repr, DecidableEq

/-- Shallow embedding of `runTransaction`'s promise wiring.  `execResult` is
how the executor's promise settles (a synchronous throw is captured by the
`Promise.resolve().then(...)` chain, so both are an `Except`); `txEvent` is
the event the transaction fires afterwards.  On executor failure the catch
branch runs `tx.abort()` and rejects with the original error (the transaction
event handlers were never attached in that path); on executor success the
handlers are attached and the promise settles according to the transaction's
own terminal event, with `tx.error || <generic message>` fallbacks. -/
def runTransaction {α : Type} (execResult : Except String α) (txEvent : TxEvent) : TxRun α :=
  match execResult with
  | .error e => ⟨.rejected e, true⟩
  | .ok r =>
    match txEvent with
    | .complete => ⟨.resolved r, false⟩
    | .abortEvent err => ⟨.rejected (err.getD "Transaction aborted"), false⟩
    | .errorEvent err => ⟨.rejected (err.getD "Transaction failed"), false⟩

/-! ### Per-operation transaction scopes -/

/-- The single object store's name. -/
def STORE_NAME : String := "assets"

/-- A transaction opened by an operation: its mode and the object store it is
scoped to (`db.transaction(STORE_NAME, mode)`). -/
structure TxScope where
  mode : TxMode
  storeName : String
  deriving Repr, DecidableEq

/-- Helper mirroring a single `runTransaction(mode, ...)` call: the body's
value together with the one transaction scope it opened. -/
def runTxLogged {α : Type} (mode : TxMode) (body : α) : α × List TxScope :=
  (body, [⟨mode, STORE_NAME⟩])

/-- `saveAsset` as exported: one readwrite transaction. -/
def saveAssetOp (db : List StoredAssetRecord) (file : Blob) (fileName : Option String)
    (options : SaveOptions) (generatedId : String) (now : Nat) : SaveResult × List TxScope :=
  runTxLogged .readwrite (saveAsset db file fileName options generatedId now)

/-- `getAsset`: one readonly transaction; `result ?? null` is the `Option`. -/
def getAssetOp (db : List StoredAssetRecord) (id : String) :
    Option StoredAssetRecord × List TxScope :=
  runTxLogged .readonly (storeGet db id)

/-- `deleteAsset`: one readwrite transaction. -/
def deleteAssetOp (db : List StoredAssetRecord) (id : String) :
    List StoredAssetRecord × List TxScope :=
  runTxLogged .readwrite (storeDelete db id)

/-- `listAllAssets`: one readonly transaction; `getAll` then strip the blob
from each record. -/
def listAllAssetsOp (db : List StoredAssetRecord) :
    List StoredAssetMetadata × List TxScope :=
  runTxLogged .readonly (db.map (fun r => r.toStoredAssetMetadata))

/-- `clearAllAssets`: one readwrite transaction around `store.clear()`. -/
def clearAllAssetsOp (_db : List StoredAssetRecord) :
    List StoredAssetRecord × List TxScope :=
  runTxLogged .readwrite ([] : List StoredAssetRecord)

/-- `getAssetsByIds`: maps `getAsset` over the ids (one call, hence one
transaction, per id) and pairs each id with its result. -/
def getAssetsByIdsOp (db : List StoredAssetRecord) (ids : List String) :
    List (String × Option StoredAssetRecord) × List TxScope :=
  let entries := ids.map (fun id => ((id, (getAssetOp db id).1), (getAssetOp db id).2))
  (entries.map Prod.fst, (entries.map Prod.snd).flatten)

/-! ### Documents and backup bundles -/

/-- A document as persisted by the localStorage module (spec section 3: id,
owning user, title, description, structured content, timestamp). -/
structure Document where
  id : String
  userId : String
  title : String
  description : String
  content : String
  lastModified : Nat
  deriving Repr, DecidableEq

/-- Modelled from the spec: `saveDocument` is exported by the `localStorage`
module, whose source is not part of this repository snapshot.  It writes one
document into the persisted collection; per spec section 3 a document's
identity is its id, so a write replaces the document with the same id or
inserts a new one. -/
def saveDocument (docs : List Document) (d : Document) : List Document :=
  if docs.any (fun x => x.id == d.id) then
    docs.map (fun x => if x.id == d.id then d else x)
  else docs ++ [d]

/-- A backup bundle (source interface `BackupData`). -/
structure BackupData where
  version : String
  timestamp : String
  documents : List Document
  deriving Repr, DecidableEq

/-- Shallow embedding of `restoreBackup`: iterate the bundle's documents and
write (via `saveDocument`) exactly those whose `userId` equals the given
one (`doc.userId === userId`). -/
def restoreBackup (backup : BackupData) (userId : String) (docs : List Document) :
    List Document :=
  backup.documents.foldl (fun s d => if d.userId == userId then saveDocument s d else s) docs

/-! ### Auth hook retry loop -/

/-- The error object returned by the auth backend: an optional HTTP status
plus a message string. -/
structure AuthError where
  status : Option Nat
  message : String
  deriving Repr, DecidableEq

/-- Whether `pat` starts the character list `s`. -/
def startsWithL : List Char → List Char → Bool
  | _, [] => true
  | [], _ :: _ => false
  | c :: cs, p :: ps => c = p && startsWithL cs ps

/-- Whether `pat` occurs as a contiguous run inside `s`. -/
def hasSubstring : List Char → List Char → Bool
  | [], pat => startsWithL [] pat
  | s@(_ :: cs), pat => startsWithL s pat || hasSubstring cs pat

/-- The transient-failure test of the auth hook:
`(error as any)?.status === 503 || /Service Unavailable|network|fetch
failed/i.test(error.message)`.  The regex holds exactly when the message
contains one of the three alternatives, case-insensitively (modelled by
lowercasing and substring search). -/
def isTransientError (e : AuthError) : Bool :=
  e.status == some 503 ||
    (let m := e.message.data.map Char.toLower
     hasSubstring m "service unavailable".data ||
     hasSubstring m "network".data ||
     hasSubstring m "fetch failed".data)

/-- Whether a backend response is a failure the loop classifies as transient. -/
def transientFail {α : Type} : Except AuthError α → Bool
  | .error e => isTransientError e
  | .ok _ => false

/-- Trace of one retry-loop run: how the call returns (`{ data, error }` — the
error side carries `lastError`, which is `none` only in the unreachable
zero-iteration case), the number of backend attempts made, and the backoff
delays performed, in ms and in order. -/
structure RetryTrace (α : Type) where
  result : Except (Option AuthError) α
  attempts : Nat
  delays : List Nat
  deriving Repr

/-- The `for (let attempt = 0; attempt < 3; attempt++)` retry loop shared
verbatim by `signIn` and `signUp`; `resp attempt` is how the backend call of
that attempt returns.  On success return `{ data, error: null }` at once; on
a failure record it in `lastError`, and if it is transient wait
`400 * 2 ^ attempt` ms and continue, otherwise break; when the loop ends
return `{ data: null, error: lastError }`.
The loop is embedded with an explicit count of remaining iterations
(`remaining = 3 - attempt`, so the loop guard `attempt < 3` is `remaining ≠ 0`),
which keeps the recursion structural. -/
def retryAux {α : Type} (resp : Nat → Except AuthError α) (attempt : Nat) :
    Nat → Option AuthError → RetryTrace α
  | 0, lastError => ⟨.error lastError, attempt, []⟩
  | remaining + 1, _lastError =>
    match resp attempt with
    | .ok d => ⟨.ok d, attempt + 1, []⟩
    | .error e =>
      if isTransientError e then
        let rest := retryAux resp (attempt + 1) remaining (some e)
        ⟨rest.result, rest.attempts, 400 * 2 ^ attempt :: rest.delays⟩
      else ⟨.error (some e), attempt + 1, []⟩

/-- `signIn`: the `signInWithPassword` backend call wrapped in the retry
loop, started at attempt 0 (3 iterations remaining) with no recorded error. -/
def signInLoop {α : Type} (resp : Nat → Except AuthError α) : RetryTrace α :=
  retryAux resp 0 3 none

/-- `signUp`: the `auth.signUp` backend call wrapped in the (textually
identical) retry loop, started at attempt 0 with no recorded error. -/
def signUpLoop {α : Type} (resp : Nat → Except AuthError α) : RetryTrace α :=
  retryAux resp 0 3 none

/-! ### localStorage and the auto-backup eviction step -/

/-- `localStorage.setItem`: the storage area is key/value pairs (kept here in
insertion order; the code sorts the keys it reads, so enumeration order is
immaterial).  Replace the value under an existing key, else append. -/
def lsSet (st : List (String × String)) (k v : String) : List (String × String) :=
  if st.any (fun p => p.1 == k) then st.map (fun p => if p.1 == k then (k, v) else p)
  else st ++ [(k, v)]

/-- `localStorage.removeItem`. -/
def lsRemove (st : List (String × String)) (k : String) : List (String × String) :=
  st.filter (fun p => !(p.1 == k))

/-- Lexicographic comparison of character lists by code point: the order JS
`Array.prototype.sort()` applies to these (ASCII) string keys. -/
def lexLe : List Char → List Char → Bool
  | [], _ => true
  | _ :: _, [] => false
  | a :: as, b :: bs => if a = b then lexLe as bs else decide (a < b)

/-- Strict lexicographic order on strings. -/
def strLt (a b : String) : Bool := lexLe a.data b.data && a != b

/-- Insertion into a lexicographically sorted list of strings. -/
def sortInsert (x : String) : List String → List String
  | [] => [x]
  | y :: ys => if lexLe x.data y.data then x :: y :: ys else y :: sortInsert x ys

/-- JS `keys.sort()` on string keys, modelled as insertion sort (on strings
the default comparator is deterministic and equal elements are identical, so
every sorting algorithm yields the same list). -/
def sortKeys : List String → List String
  | [] => []
  | x :: xs => sortInsert x (sortKeys xs)

/-- The key a snapshot at time `t` is stored under:
`` `auto_backup_${Date.now()}` ``. -/
def autoKey (t : Nat) : String :=
  "auto_backup_" ++ toString t

/-- Whether a localStorage key is an auto-backup key
(`k.startsWith('auto_backup_')`). -/
def isAutoKey (k : String) : Bool :=
  startsWithL k.data "auto_backup_".data

/-- The auto-backup keys currently in storage, in storage order. -/
def autoKeys (st : List (String × String)) : List String :=
  (st.map Prod.fst).filter isAutoKey

/-- One tick of `startAutoBackup`'s interval: write the snapshot under
`auto_backup_<Date.now()>`, collect all auto-backup keys, `sort()` them, and
when more than 5 remain remove the entries under the first
`length - 5` sorted keys (`slice(0, autoBackups.length - 5)`). -/
def snapshotStep (st : List (String × String)) (t : Nat) (backupJson : String) :
    List (String × String) :=
  let st1 := lsSet st (autoKey t) backupJson
  let autoBackups := sortKeys (autoKeys st1)
  if autoBackups.length > 5 then
    (autoBackups.take (autoBackups.length - 5)).foldl lsRemove st1
  else st1

/-- Run a sequence of interval ticks; `tvs` pairs each tick's `Date.now()`
with the serialized snapshot it writes. -/
def runSnapshots (st : List (String × String)) (tvs : List (Nat × String)) :
    List (String × String) :=
  tvs.foldl (fun s tv => snapshotStep s tv.1 tv.2) st

/-- Boolean membership of a string in a list of strings. -/
def inList (x : String) : List String → Bool
  | [] => false
  | y :: ys => x == y || inList x ys

/-! ### JSON values and `importBackup` -/

/-- A JavaScript value as produced by `JSON.parse`, plus `undefined`, which
property access can yield. -/
inductive JsValue where
  | null
  | undefined
  | bool (b : Bool)
  | num (n : Int)
  | str (s : String)
  | arr (elems : List JsValue)
  | obj (fields : List (String × JsValue))
  deriving Repr

/-- JavaScript truthiness of a value (`NaN` is not modelled). -/
def truthy : JsValue → Bool
  | .null => false
  | .undefined => false
  | .bool b => b
  | .num n => !(n == 0)
  | .str s => s ≠ ""
  | .arr _ => true
  | .obj _ => true

/-- Property access `v.k`: `none` models the `TypeError` thrown on a
`null`/`undefined` receiver; on an object it is the field's value
(`undefined` when absent; `JSON.parse` already resolved duplicate keys); on
the remaining primitives and arrays the plain-named keys used here are
absent, hence `undefined`. -/
def getProp : JsValue → String → Option JsValue
  | .null, _ => none
  | .undefined, _ => none
  | .obj fields, k => some (((fields.find? (fun p => p.1 == k)).map Prod.snd).getD .undefined)
  | _, _ => some .undefined

/-- Whether an object value carries a field named `k` (present at all,
truthy or not). -/
def hasField (v : JsValue) (k : String) : Bool :=
  match v with
  | .obj fields => fields.any (fun p => p.1 == k)
  | _ => false

/-- Whether `v.k` is accessible and truthy. -/
def truthyProp (v : JsValue) (k : String) : Bool :=
  match getProp v k with
  | some x => truthy x
  | none => false

/-- How the promise of `importBackup` settles. -/
inductive ImportResult where
  | resolved (v : JsValue)
  | rejected (msg : String)
  deriving Repr

/-- Shallow embedding of `importBackup`.  The input is how reading the file
turns out: `none` is the reader `error` event; `some (.error m)` means the
content was read but `JSON.parse` threw with message `m`; `some (.ok data)`
the parsed value.  The source guard is `if (!data.version ||
!data.documents) throw ...`, which evaluates `data.version` first (a
`null`/`undefined` receiver throws a TypeError, caught and rejected) and
accepts only when both properties are truthy. -/
def importBackup (read : Option (Except String JsValue)) : ImportResult :=
  match read with
  | none => .rejected "Failed to read file"
  | some (.error m) => .rejected m
  | some (.ok data) =>
    match getProp data "version" with
    | none => .rejected "TypeError"
    | some v =>
      if truthy v then
        match getProp data "documents" with
        | none => .rejected "TypeError"
        | some d =>
          if truthy d then .resolved data else .rejected "Invalid backup file format"
      else .rejected "Invalid backup file format"

/-! ### Environment capability and `openDatabase` -/

/-- The slice of the JS global environment `getIndexedDB` inspects. -/
structure JsEnv where
  hasIndexedDB : Bool
  deriving Repr, DecidableEq

/-- `getIndexedDB`: returns the factory, or throws synchronously (the
`Except.error`) when the global `indexedDB` is undefined. -/
def getIndexedDB (env : JsEnv) : Except String Unit :=
  if env.hasIndexedDB then .ok () else .error "IndexedDB is not supported in this environment."

/-- How a call into the module surfaces to its caller: a synchronous throw,
or a promise that settles later. -/
inductive CallSurface (α : Type) where
  | thrown (msg : String)
  | promise (settled : Except String α)
  deriving Repr

/-- Whether a call surfaced as a synchronous throw. -/
def isSyncThrow {α : Type} : CallSurface α → Bool
  | .thrown _ => true
  | .promise _ => false

/-- The module-level memoized connection promise (`let dbPromise: ... | null`). -/
structure ModuleState where
  dbPromise : Option (Except String Unit)
  deriving Repr

/-- Shallow embedding of `openDatabase` (the connection handle itself is
irrelevant here and modelled as `Unit`).  `openResult` is how the IDB `open`
request would settle (its `onsuccess`/`onerror` events).  A memoized promise
is returned as-is.  Otherwise a new promise is built; inside its executor
`getIndexedDB().open(...)` runs in a `try`/`catch` whose catch REJECTS the
promise with the thrown error, so the capability error surfaces as an
asynchronous rejection of the memoized promise, never as a synchronous throw
of `openDatabase` itself. -/
def openDatabase (env : JsEnv) (openResult : Except String Unit) (st : ModuleState) :
    CallSurface Unit × ModuleState :=
  match st.dbPromise with
  | some p => (.promise p, st)
  | none =>
    let p : Except String Unit :=
      match getIndexedDB env with
      | .error e => .error e
      | .ok _ => openResult
    (.promise p, ⟨some p⟩)

/-! ### Base64 and data URLs -/

/-- The base64 alphabet (RFC 4648), as the data-URL serialization and `atob`
use it. -/
def b64Chars : List Char :=
  "ABCDEFGHIJKLMNOPQRSTUVWXYZabcdefghijklmnopqrstuvwxyz0123456789+/".data

/-- The character encoding a 6-bit group (`=` as an out-of-range default). -/
def b64Char (n : Nat) : Char := b64Chars.getD n '='

/-- The 6-bit group a character encodes (64, the alphabet size, for a
non-alphabet character, on which `atob` would throw). -/
def b64Index (c : Char) : Nat := b64Chars.findIdx (fun x => x = c)

/-- Base64 encoding of a byte sequence, as the data-URL serialization of a
blob produces it: each 3 bytes become 4 characters; a final 1- or 2-byte
group is padded with `=`. -/
def b64EncodeChunks : List Nat → List Char
  | [] => []
  | [a] => [b64Char (a / 4), b64Char (a % 4 * 16), '=', '=']
  | [a, b] => [b64Char (a / 4), b64Char (a % 4 * 16 + b / 16), b64Char (b % 16 * 4), '=']
  | a :: b :: c :: rest =>
      b64Char (a / 4) :: b64Char (a % 4 * 16 + b / 16) :: b64Char (b % 16 * 4 + c / 64)
        :: b64Char (c % 64) :: b64EncodeChunks rest

/-- The unpadded base64 body of a byte sequence: `b64EncodeChunks` with its
`=` padding removed (used to state what padding-stripping leaves). -/
def b64EncodeRaw : List Nat → List Char
  | [] => []
  | [a] => [b64Char (a / 4), b64Char (a % 4 * 16)]
  | [a, b] => [b64Char (a / 4), b64Char (a % 4 * 16 + b / 16), b64Char (b % 16 * 4)]
  | a :: b :: c :: rest =>
      b64Char (a / 4) :: b64Char (a % 4 * 16 + b / 16) :: b64Char (b % 16 * 4 + c / 64)
        :: b64Char (c % 64) :: b64EncodeRaw rest

/-- ASCII whitespace, which the forgiving-base64 decode behind `atob` strips
from its input first. -/
def asciiWhitespace (c : Char) : Bool :=
  c = ' ' || c = '\t' || c = '\n' || c = '\r' || c = '\x0c'

/-- Whether a character belongs to the base64 alphabet. -/
def b64IsAlpha (c : Char) : Bool := b64Chars.any (fun x => x = c)

/-- Remove one or two trailing `=` from a reversed character list. -/
def dropPadRev : List Char → List Char
  | a :: b :: r => if a = '=' then (if b = '=' then r else b :: r) else a :: b :: r
  | r => r

/-- Remove one or two trailing `=` padding characters. -/
def stripPad (s : List Char) : List Char := (dropPadRev s.reverse).reverse

/-- The 6-bit groups of a validated base64 body: each 4 characters yield 3
bytes; a trailing group of 2 or 3 characters yields 1 or 2 bytes (the
leftover low bits are discarded). -/
def decodeRaw : List Char → List Nat
  | a :: b :: c :: d :: rest =>
      (b64Index a * 4 + b64Index b / 16)
        :: (b64Index b % 16 * 16 + b64Index c / 4)
        :: (b64Index c % 4 * 64 + b64Index d)
        :: decodeRaw rest
  | [a, b, c] => [b64Index a * 4 + b64Index b / 16, b64Index b % 16 * 16 + b64Index c / 4]
  | [a, b] => [b64Index a * 4 + b64Index b / 16]
  | _ => []

/-- `atob` (the WHATWG forgiving-base64 decode): strip ASCII whitespace;
when the length is a multiple of 4, strip one or two trailing `=`; throw
(`none`, an `InvalidCharacterError`) when the remaining length is 1 mod 4 or
when any remaining character is outside the base64 alphabet; otherwise
decode the 6-bit groups. -/
def atobModel (s : List Char) : Option (List Nat) :=
  let s1 := s.filter (fun c => !asciiWhitespace c)
  let s2 := if s1.length % 4 = 0 then stripPad s1 else s1
  if s2.length % 4 = 1 then none
  else if s2.all b64IsAlpha then some (decodeRaw s2)
  else none

/-- Model of `FileReader.readAsDataURL` (a platform primitive, per the File
API's data-URL serialization): `data:<type>;base64,<base64 of the bytes>`;
an empty blob type is left out, giving `data:;base64,...`. -/
def blobToDataUrl (b : Blob) : List Char :=
  "data:".data ++ b.type.data ++ ";base64,".data ++ b64EncodeChunks b.bytes

/-- JS `dataUrl.split(",")`. -/
def splitOnComma : List Char → List (List Char)
  | [] => [[]]
  | c :: cs =>
    if c = ',' then [] :: splitOnComma cs
    else
      match splitOnComma cs with
      | [] => [[c]]
      | p :: ps => (c :: p) :: ps

/-- Case-insensitive character comparison, as the regex `/i` flag compares. -/
def ciEq (a b : Char) : Bool := a.toLower = b.toLower

/-- Whether `pat` starts `s` case-insensitively. -/
def ciStartsWith : List Char → List Char → Bool
  | _, [] => true
  | [], _ :: _ => false
  | c :: cs, p :: ps => ciEq c p && ciStartsWith cs ps

/-- Whether `pat` ends `s` case-insensitively. -/
def ciEndsWith (s pat : List Char) : Bool := ciStartsWith s.reverse pat.reverse

/-- The remainder of `s` after the first case-insensitive occurrence of
`pat`, scanning start positions left to right as `RegExp.exec` does
(`none` when `pat` never occurs, i.e. the regex fails to match). -/
def findCiRest (pat : List Char) : List Char → Option (List Char)
  | [] => if ciStartsWith [] pat then some [] else none
  | s@(_ :: cs) =>
    if ciStartsWith s pat then some (s.drop pat.length) else findCiRest pat cs

/-- `exec` of `/data:(.*?)(;base64)?$/i` applied to `meta`: group 1.  The
regex matches at the first position where `data:` occurs case-insensitively;
past it, the lazy `(.*?)` followed by the greedy optional `(;base64)?`
anchored at `$` splits the remainder `rest` as `g1 ++ g2` with
`g2 ∈ {";base64", ""}` (case-insensitive) and `g1` shortest, so `g1` is
`rest` less a case-insensitive `;base64` suffix when one exists (the split
point is forced by the lengths), else all of `rest`. -/
def execMimeRegex (meta : List Char) : Option (List Char) :=
  match findCiRest "data:".data meta with
  | none => none
  | some rest =>
      if ciEndsWith rest ";base64".data then some (rest.take (rest.length - 7))
      else some rest

/-- Shallow embedding of `dataUrlToBlob`: split on `","` (a missing second
part is `undefined`, which `atob` receives coerced to the string
"undefined"), regex-extract the MIME type from the meta part
(`mimeMatch?.[1] || "application/octet-stream"` defaults on a missing match
and on an empty group), `atob` the data part — `none` models the
`InvalidCharacterError` it throws propagating out of `dataUrlToBlob` — then
load the character codes into a `Uint8Array` (values wrap modulo 256) and
build the blob (whose platform constructor normalizes the type). -/
def dataUrlToBlob (u : List Char) : Option Blob :=
  let parts := splitOnComma u
  let meta := parts.getD 0 []
  let dataPart := parts.getD 1 "undefined".data
  let mime :=
    match execMimeRegex meta with
    | some g1 => if g1.isEmpty then "application/octet-stream" else String.mk g1
    | none => "application/octet-stream"
  (atobModel dataPart).map (fun binary =>
    ⟨binary.map (fun x => x % 256), normalizeBlobType mime⟩)

end DocBuilder

namespace DocBuilder

/-! ## Theorems -/

/-- The record written by `storePut` is found again under its key. -/
theorem storeGet_storePut (s : List StoredAssetRecord) (r : StoredAssetRecord) :
    storeGet (storePut s r) r.id = some r := by
  unfold storeGet storePut
  rw [List.find?_append]
  have h1 : (s.filter (fun x => !(x.id == r.id))).find? (fun x => x.id == r.id) = none := by
    rw [List.find?_eq_none]
    intro x hx
    have := List.of_mem_filter hx
    simpa using this
  rw [h1]
  simp

/-- Flattening singleton images is the plain image. -/
theorem flatten_map_singleton {β γ : Type} (l : List β) (x : γ) :
    (l.map (fun _ => [x])).flatten = l.map (fun _ => x) := by
  induction l with
  | nil => rfl
  | cons a l ih => simp [ih]

/-- C1 counterexample data: a record stored under the empty-string id. -/
def c1Blob : Blob := ⟨[1, 2], "text/plain"⟩

/-- C1 counterexample data: store holding one record with id `""`. -/
def c1Store : List StoredAssetRecord := [⟨⟨"", "n", "text/plain", 2, 10, 10⟩, c1Blob⟩]

/-- C1 counterexample data: caller-supplied id `""`, an `updatedAt` override,
and no `createdAt` override. -/
def c1Options : SaveOptions := ⟨some "", none, none, none, some 77⟩

/-- C1: the claim as stated is false.  A record with id `""` exists in the
store, the call supplies that id with no `createdAt` override, yet the
returned metadata neither keeps the existing `createdAt` (the truthiness test
`options.id ?` skips the lookup for the falsy empty id) nor receives a
freshly stamped `updatedAt` (the explicit `updatedAt: 77` override wins over
`Date.now() = 100`). -/
theorem c1_counterexample :
    storeGet c1Store "" = some ⟨⟨"", "n", "text/plain", 2, 10, 10⟩, c1Blob⟩ ∧
    c1Options.id = some "" ∧
    c1Options.createdAt = none ∧
    (saveAsset c1Store c1Blob none c1Options "gen" 100).meta.createdAt = 100 ∧
    (saveAsset c1Store c1Blob none c1Options "gen" 100).meta.updatedAt = 77 := by
  decide

/-- C1 (amended): for a caller-supplied non-empty id whose record exists in
the store and with no explicit `createdAt` override, the returned metadata
and the stored record keep the existing record's `createdAt`, and — absent an
explicit `updatedAt` override — `updatedAt` is stamped with the current time;
when no id is supplied, the id is falsy, or no record with the id exists,
`createdAt` is stamped with the current time. -/
theorem c1_saveAsset_createdAt_semantics
    (store : List StoredAssetRecord) (file : Blob) (fileName : Option String)
    (options : SaveOptions) (generatedId : String) (now : Nat) :
    (∀ i e, options.id = some i → i ≠ "" → options.createdAt = none →
      storeGet store i = some e →
      (saveAsset store file fileName options generatedId now).meta.createdAt = e.createdAt ∧
      (storeGet (saveAsset store file fileName options generatedId now).store i).map
          StoredAssetRecord.toStoredAssetMetadata =
        some (saveAsset store file fileName options generatedId now).meta ∧
      (options.updatedAt = none →
        (saveAsset store file fileName options generatedId now).meta.updatedAt = now)) ∧
    ((jsTruthyStr options.id = false ∨ storeGet store (options.id.getD generatedId) = none) →
      options.createdAt = none →
      (saveAsset store file fileName options generatedId now).meta.createdAt = now) := by
  constructor
  · intro i e hid hne hc hget
    have htruthy : jsTruthyStr options.id = true := by
      simp [jsTruthyStr, hid, hne]
    have hidD : options.id.getD generatedId = i := by simp [hid]
    have hrid : (saveRecord store file fileName options generatedId now).id = i := by
      simp [saveRecord, hidD]
    refine ⟨?_, ?_, ?_⟩
    · simp [saveAsset, saveRecord, htruthy, hidD, hget, hc]
    · show (storeGet (storePut store (saveRecord store file fileName options generatedId now))
          i).map StoredAssetRecord.toStoredAssetMetadata = _
      rw [← hrid, storeGet_storePut]
      rfl
    · intro hu
      simp [saveAsset, saveRecord, htruthy, hidD, hget, hc, hu]
  · intro hmiss hc
    rcases hmiss with hfalse | hnone
    · simp [saveAsset, saveRecord, hfalse, hc]
    · cases htruthy : jsTruthyStr options.id with
      | true => simp [saveAsset, saveRecord, htruthy, hnone, hc]
      | false => simp [saveAsset, saveRecord, htruthy, hc]

/-- C1 witness: instantiating the amended theorem at a concrete store. -/
def c1wRec : StoredAssetRecord := ⟨⟨"a", "n", "text/plain", 2, 10, 10⟩, c1Blob⟩

/-- C1 witness store. -/
def c1wStore : List StoredAssetRecord := [c1wRec]

/-- C1 witness: a save over the existing id `"a"` with no overrides keeps
`createdAt = 10` and stamps `updatedAt = 100`. -/
theorem c1_witness :
    (saveAsset c1wStore c1Blob none ⟨some "a", none, none, none, none⟩ "gen" 100).meta.createdAt
        = 10 ∧
    (saveAsset c1wStore c1Blob none ⟨some "a", none, none, none, none⟩ "gen" 100).meta.updatedAt
        = 100 := by
  have h := (c1_saveAsset_createdAt_semantics c1wStore c1Blob none
    ⟨some "a", none, none, none, none⟩ "gen" 100).1 "a" c1wRec rfl (by decide) rfl (by decide)
  exact ⟨h.1, h.2.2 rfl⟩

/-- C2: whenever the executor inside the transaction body fails with error
`e`, `runTransaction` invokes `tx.abort()` and its promise rejects with that
original error `e` itself — not with the generic "Transaction aborted"
fallback, whatever event the transaction later fires. -/
theorem c2_runTransaction_rejects_original_error (α : Type) (e : String) (ev : TxEvent) :
    @runTransaction α (.error e) ev = ⟨.rejected e, true⟩ := rfl

/-- C4: the claim as stated is false: `getAssetsByIds` with two ids opens two
transactions, not a single one. -/
theorem c4_counterexample :
    ((getAssetsByIdsOp [] ["a", "b"]).2).length = 2 ∧
    ¬ ((getAssetsByIdsOp [] ["a", "b"]).2).length = 1 := by
  decide

/-- C4 (amended): save, get, delete, list and clear each run inside exactly
one transaction (readwrite for the mutators, readonly for the readers) scoped
to the one `assets` store; `getAssetsByIds` opens one readonly transaction on
that store per requested id; and `runTransaction`'s promise resolves only
when the transaction fired `complete` (so a successful result implies the
transaction committed). -/
theorem c4_transaction_scoping :
    (∀ db file fileName options generatedId now,
      (saveAssetOp db file fileName options generatedId now).2 = [⟨.readwrite, STORE_NAME⟩]) ∧
    (∀ db id, (getAssetOp db id).2 = [⟨.readonly, STORE_NAME⟩]) ∧
    (∀ db id, (deleteAssetOp db id).2 = [⟨.readwrite, STORE_NAME⟩]) ∧
    (∀ db, (listAllAssetsOp db).2 = [⟨.readonly, STORE_NAME⟩]) ∧
    (∀ db, (clearAllAssetsOp db).2 = [⟨.readwrite, STORE_NAME⟩]) ∧
    (∀ db ids, (getAssetsByIdsOp db ids).2 = ids.map (fun _ => ⟨.readonly, STORE_NAME⟩)) ∧
    (∀ (α : Type) (er : Except String α) (ev : TxEvent) (r : α),
      (runTransaction er ev).outcome = .resolved r → ev = .complete ∧ er = .ok r) := by
  refine ⟨fun _ _ _ _ _ _ => rfl, fun _ _ => rfl, fun _ _ => rfl, fun _ => rfl, fun _ => rfl,
    ?_, ?_⟩
  · intro db ids
    simp only [getAssetsByIdsOp, getAssetOp, runTxLogged, List.map_map]
    exact flatten_map_singleton ids _
  · intro α er ev r h
    cases er with
    | error e => simp [runTransaction] at h
    | ok a =>
      cases ev with
      | complete =>
        refine ⟨rfl, ?_⟩
        simp [runTransaction] at h
        simp [h]
      | abortEvent err => simp [runTransaction] at h
      | errorEvent err => simp [runTransaction] at h

/-- C4 witness: the amended theorem applied at concrete inputs. -/
theorem c4_witness :
    (getAssetsByIdsOp [] ["a", "b"]).2 = [⟨.readonly, STORE_NAME⟩, ⟨.readonly, STORE_NAME⟩] ∧
    TxEvent.complete = TxEvent.complete ∧
    (Except.ok 0 : Except String Nat) = Except.ok 0 := by
  refine ⟨?_, ?_⟩
  · have h := c4_transaction_scoping.2.2.2.2.2.1 [] ["a", "b"]
    simpa using h
  · exact c4_transaction_scoping.2.2.2.2.2.2 Nat (Except.ok 0) TxEvent.complete 0 rfl

/-- C10: when no id is supplied, `saveAsset` issues no lookup of an existing
record (the freshly generated id is used), and absent `createdAt`/`updatedAt`
overrides the returned metadata has `createdAt = updatedAt = now`, both from
the single time captured at the start of the call. -/
theorem c10_saveAsset_fresh_id
    (store : List StoredAssetRecord) (file : Blob) (fileName : Option String)
    (nm tp : Option String) (generatedId : String) (now : Nat) :
    (∀ i, StoreReq.get i ∉
      (saveAsset store file fileName ⟨none, nm, tp, none, none⟩ generatedId now).reqs) ∧
    (saveAsset store file fileName ⟨none, nm, tp, none, none⟩ generatedId now).meta.id
        = generatedId ∧
    (saveAsset store file fileName ⟨none, nm, tp, none, none⟩ generatedId now).meta.createdAt
        = now ∧
    (saveAsset store file fileName ⟨none, nm, tp, none, none⟩ generatedId now).meta.updatedAt
        = now := by
  refine ⟨?_, rfl, rfl, rfl⟩
  intro i
  simp [saveAsset, jsTruthyStr]

/-- Membership after a `saveDocument` write: an old document or the one just
written. -/
theorem mem_saveDocument {docs : List Document} {d x : Document}
    (hx : x ∈ saveDocument docs d) : x ∈ docs ∨ x = d := by
  unfold saveDocument at hx
  split at hx
  · rcases List.mem_map.mp hx with ⟨y, hy, hyx⟩
    cases hid : (y.id == d.id) with
    | true => right; simp [hid] at hyx; exact hyx.symm
    | false => left; simp [hid] at hyx; exact hyx ▸ hy
  · rcases List.mem_append.mp hx with hy | hy
    · exact Or.inl hy
    · right; simpa using hy

/-- The owner-guarded fold of `restoreBackup` equals the fold over the
owner-filtered documents. -/
theorem foldl_restore_filter (userId : String) (l : List Document) (docs : List Document) :
    l.foldl (fun s d => if d.userId == userId then saveDocument s d else s) docs =
      (l.filter (fun d => d.userId == userId)).foldl saveDocument docs := by
  induction l generalizing docs with
  | nil => rfl
  | cons c rest ih =>
    rw [List.foldl_cons, List.filter_cons]
    by_cases hc : c.userId = userId
    · have hb : (c.userId == userId) = true := beq_iff_eq.mpr hc
      rw [if_pos hb, if_pos hb, List.foldl_cons]
      exact ih (saveDocument docs c)
    · have hb : ¬((c.userId == userId) = true) := by simp [hc]
      rw [if_neg hb, if_neg hb]
      exact ih docs

/-- Documents present after the `restoreBackup` fold were present before or
belong to the given user. -/
theorem mem_restore_fold (userId : String) (l : List Document) (docs : List Document)
    (x : Document)
    (hx : x ∈ l.foldl (fun s d => if d.userId == userId then saveDocument s d else s) docs) :
    x ∈ docs ∨ x.userId = userId := by
  induction l generalizing docs with
  | nil => exact Or.inl hx
  | cons c rest ih =>
    simp only [List.foldl_cons] at hx
    rcases ih _ hx with hmem | huid
    · cases hc : (c.userId == userId) with
      | true =>
        simp only [hc, if_true] at hmem
        rcases mem_saveDocument hmem with h | h
        · exact Or.inl h
        · right; rw [h]; exact beq_iff_eq.mp hc
      | false =>
        simp only [hc] at hmem
        simp at hmem
        exact Or.inl hmem
    · exact Or.inr huid

/-- C5: `restoreBackup` writes exactly the bundle documents whose owner
matches the given `userId` (it equals the `saveDocument`-fold over the
owner-filtered documents, so documents with a non-matching owner contribute
nothing and leave the stored state untouched), and every document present
after a restore was either already stored or belongs to the given user —
no document owned by another user is ever written. -/
theorem c5_restoreBackup_owner_scoped (backup : BackupData) (userId : String)
    (docs : List Document) :
    restoreBackup backup userId docs =
      (backup.documents.filter (fun d => d.userId == userId)).foldl saveDocument docs ∧
    ∀ x ∈ restoreBackup backup userId docs, x ∈ docs ∨ x.userId = userId := by
  refine ⟨foldl_restore_filter userId backup.documents docs, ?_⟩
  intro x hx
  exact mem_restore_fold userId backup.documents docs x hx

/-- C5 witness data: a document owned by alice. -/
def c5docA : Document := ⟨"1", "alice", "t", "", "c", 0⟩

/-- C5 witness data: a document owned by bob. -/
def c5docB : Document := ⟨"2", "bob", "t", "", "c", 0⟩

/-- C5 witness data: a bundle holding documents of two different owners. -/
def c5bundle : BackupData := ⟨"1.0", "ts", [c5docA, c5docB]⟩

/-- C5 witness: restoring the two-owner bundle as alice from an empty store
stores exactly alice's document, and the theorem instantiated at it. -/
theorem c5_witness :
    restoreBackup c5bundle "alice" [] = [c5docA] ∧
    (c5docA ∈ ([] : List Document) ∨ c5docA.userId = "alice") := by
  refine ⟨by decide, ?_⟩
  exact (c5_restoreBackup_owner_scoped c5bundle "alice" []).2 c5docA (by decide)

/-- C6: for every sequence of backend responses, `signUp` behaves as `signIn`
(the loops are identical); at most 3 attempts are made in total; every retry
(attempt `j + 1`) happens only because attempt `j` failed transiently; the
delays performed are exactly `400 * 2 ^ i` for each transiently failed
attempt `i`; a success on any attempt is returned at once; and a
non-transient failure is returned (not thrown) at once with the original
error object. -/
theorem c6_auth_retry_bounded (α : Type) (resp : Nat → Except AuthError α) :
    signUpLoop resp = signInLoop resp ∧
    (signInLoop resp).attempts ≤ 3 ∧
    (∀ j, j + 1 < (signInLoop resp).attempts → transientFail (resp j) = true) ∧
    ((signInLoop resp).delays =
      (List.range (signInLoop resp).attempts).filterMap
        (fun i => if transientFail (resp i) then some (400 * 2 ^ i) else none)) ∧
    (∀ i d, i < (signInLoop resp).attempts → resp i = .ok d →
      (signInLoop resp).result = .ok d ∧ (signInLoop resp).attempts = i + 1) ∧
    (∀ i e, i < (signInLoop resp).attempts → resp i = .error e → isTransientError e = false →
      (signInLoop resp).result = .error (some e) ∧ (signInLoop resp).attempts = i + 1) := by
  refine ⟨rfl, ?_⟩
  cases hr0 : resp 0 with
  | ok d0 =>
    have hch : signInLoop resp = ⟨.ok d0, 1, []⟩ := by
      simp [signInLoop, retryAux, hr0]
    have ha : (signInLoop resp).attempts = 1 := by rw [hch]
    have hres : (signInLoop resp).result = .ok d0 := by rw [hch]
    have hdel : (signInLoop resp).delays = [] := by rw [hch]
    refine ⟨by omega, fun j hj => by omega, ?_, ?_, ?_⟩
    · rw [hdel, ha]; simp [List.range_succ, transientFail, hr0]
    · intro i d hi hok
      have hi0 : i = 0 := by omega
      subst hi0
      rw [hr0] at hok; simp at hok
      exact ⟨by rw [hres, hok], by omega⟩
    · intro i e hi he _hn
      have hi0 : i = 0 := by omega
      subst hi0
      rw [hr0] at he; exact absurd he (by simp)
  | error e0 =>
    cases ht0 : isTransientError e0 with
    | false =>
      have hch : signInLoop resp = ⟨.error (some e0), 1, []⟩ := by
        simp [signInLoop, retryAux, hr0, ht0]
      have ha : (signInLoop resp).attempts = 1 := by rw [hch]
      have hres : (signInLoop resp).result = .error (some e0) := by rw [hch]
      have hdel : (signInLoop resp).delays = [] := by rw [hch]
      refine ⟨by omega, fun j hj => by omega, ?_, ?_, ?_⟩
      · rw [hdel, ha]; simp [List.range_succ, transientFail, hr0, ht0]
      · intro i d hi hok
        have hi0 : i = 0 := by omega
        subst hi0
        rw [hr0] at hok; exact absurd hok (by simp)
      · intro i e hi he _hn
        have hi0 : i = 0 := by omega
        subst hi0
        rw [hr0] at he; simp at he
        exact ⟨by rw [hres, he], by omega⟩
    | true =>
      cases hr1 : resp 1 with
      | ok d1 =>
        have hch : signInLoop resp = ⟨.ok d1, 2, [400]⟩ := by
          simp [signInLoop, retryAux, hr0, ht0, hr1]
        have ha : (signInLoop resp).attempts = 2 := by rw [hch]
        have hres : (signInLoop resp).result = .ok d1 := by rw [hch]
        have hdel : (signInLoop resp).delays = [400] := by rw [hch]
        refine ⟨by omega, ?_, ?_, ?_, ?_⟩
        · intro j hj
          have hj0 : j = 0 := by omega
          subst hj0
          simp [transientFail, hr0, ht0]
        · rw [hdel, ha]; simp [List.range_succ, transientFail, hr0, ht0, hr1]
        · intro i d hi hok
          have : i = 0 ∨ i = 1 := by omega
          rcases this with hi0 | hi1
          · subst hi0; rw [hr0] at hok; exact absurd hok (by simp)
          · subst hi1; rw [hr1] at hok; simp at hok
            exact ⟨by rw [hres, hok], by omega⟩
        · intro i e hi he hn
          have : i = 0 ∨ i = 1 := by omega
          rcases this with hi0 | hi1
          · subst hi0; rw [hr0] at he; simp at he
            rw [← he] at hn; rw [ht0] at hn; exact absurd hn (by simp)
          · subst hi1; rw [hr1] at he; exact absurd he (by simp)
      | error e1 =>
        cases ht1 : isTransientError e1 with
        | false =>
          have hch : signInLoop resp = ⟨.error (some e1), 2, [400]⟩ := by
            simp [signInLoop, retryAux, hr0, ht0, hr1, ht1]
          have ha : (signInLoop resp).attempts = 2 := by rw [hch]
          have hres : (signInLoop resp).result = .error (some e1) := by rw [hch]
          have hdel : (signInLoop resp).delays = [400] := by rw [hch]
          refine ⟨by omega, ?_, ?_, ?_, ?_⟩
          · intro j hj
            have hj0 : j = 0 := by omega
            subst hj0
            simp [transientFail, hr0, ht0]
          · rw [hdel, ha]; simp [List.range_succ, transientFail, hr0, ht0, hr1, ht1]
          · intro i d hi hok
            have : i = 0 ∨ i = 1 := by omega
            rcases this with hi0 | hi1
            · subst hi0; rw [hr0] at hok; exact absurd hok (by simp)
            · subst hi1; rw [hr1] at hok; exact absurd hok (by simp)
          · intro i e hi he hn
            have : i = 0 ∨ i = 1 := by omega
            rcases this with hi0 | hi1
            · subst hi0; rw [hr0] at he; simp at he
              rw [← he] at hn; rw [ht0] at hn; exact absurd hn (by simp)
            · subst hi1; rw [hr1] at he; simp at he
              exact ⟨by rw [hres, he], by omega⟩
        | true =>
          cases hr2 : resp 2 with
          | ok d2 =>
            have hch : signInLoop resp = ⟨.ok d2, 3, [400, 800]⟩ := by
              simp [signInLoop, retryAux, hr0, ht0, hr1, ht1, hr2]
            have ha : (signInLoop resp).attempts = 3 := by rw [hch]
            have hres : (signInLoop resp).result = .ok d2 := by rw [hch]
            have hdel : (signInLoop resp).delays = [400, 800] := by rw [hch]
            refine ⟨by omega, ?_, ?_, ?_, ?_⟩
            · intro j hj
              have : j = 0 ∨ j = 1 := by omega
              rcases this with hj0 | hj1
              · subst hj0; simp [transientFail, hr0, ht0]
              · subst hj1; simp [transientFail, hr1, ht1]
            · rw [hdel, ha]; simp [List.range_succ, transientFail, hr0, ht0, hr1, ht1, hr2]
            · intro i d hi hok
              have : i = 0 ∨ i = 1 ∨ i = 2 := by omega
              rcases this with hi0 | hi1 | hi2
              · subst hi0; rw [hr0] at hok; exact absurd hok (by simp)
              · subst hi1; rw [hr1] at hok; exact absurd hok (by simp)
              · subst hi2; rw [hr2] at hok; simp at hok
                exact ⟨by rw [hres, hok], by omega⟩
            · intro i e hi he hn
              have : i = 0 ∨ i = 1 ∨ i = 2 := by omega
              rcases this with hi0 | hi1 | hi2
              · subst hi0; rw [hr0] at he; simp at he
                rw [← he] at hn; rw [ht0] at hn; exact absurd hn (by simp)
              · subst hi1; rw [hr1] at he; simp at he
                rw [← he] at hn; rw [ht1] at hn; exact absurd hn (by simp)
              · subst hi2; rw [hr2] at he; exact absurd he (by simp)
          | error e2 =>
            cases ht2 : isTransientError e2 with
            | false =>
              have hch : signInLoop resp = ⟨.error (some e2), 3, [400, 800]⟩ := by
                simp [signInLoop, retryAux, hr0, ht0, hr1, ht1, hr2, ht2]
              have ha : (signInLoop resp).attempts = 3 := by rw [hch]
              have hres : (signInLoop resp).result = .error (some e2) := by rw [hch]
              have hdel : (signInLoop resp).delays = [400, 800] := by rw [hch]
              refine ⟨by omega, ?_, ?_, ?_, ?_⟩
              · intro j hj
                have : j = 0 ∨ j = 1 := by omega
                rcases this with hj0 | hj1
                · subst hj0; simp [transientFail, hr0, ht0]
                · subst hj1; simp [transientFail, hr1, ht1]
              · rw [hdel, ha]
                simp [List.range_succ, transientFail, hr0, ht0, hr1, ht1, hr2, ht2]
              · intro i d hi hok
                have : i = 0 ∨ i = 1 ∨ i = 2 := by omega
                rcases this with hi0 | hi1 | hi2
                · subst hi0; rw [hr0] at hok; exact absurd hok (by simp)
                · subst hi1; rw [hr1] at hok; exact absurd hok (by simp)
                · subst hi2; rw [hr2] at hok; exact absurd hok (by simp)
              · intro i e hi he hn
                have : i = 0 ∨ i = 1 ∨ i = 2 := by omega
                rcases this with hi0 | hi1 | hi2
                · subst hi0; rw [hr0] at he; simp at he
                  rw [← he] at hn; rw [ht0] at hn; exact absurd hn (by simp)
                · subst hi1; rw [hr1] at he; simp at he
                  rw [← he] at hn; rw [ht1] at hn; exact absurd hn (by simp)
                · subst hi2; rw [hr2] at he; simp at he
                  exact ⟨by rw [hres, he], by omega⟩
            | true =>
              have hch : signInLoop resp = ⟨.error (some e2), 3, [400, 800, 1600]⟩ := by
                simp [signInLoop, retryAux, hr0, ht0, hr1, ht1, hr2, ht2]
              have ha : (signInLoop resp).attempts = 3 := by rw [hch]
              have hdel : (signInLoop resp).delays = [400, 800, 1600] := by rw [hch]
              refine ⟨by omega, ?_, ?_, ?_, ?_⟩
              · intro j hj
                have : j = 0 ∨ j = 1 := by omega
                rcases this with hj0 | hj1
                · subst hj0; simp [transientFail, hr0, ht0]
                · subst hj1; simp [transientFail, hr1, ht1]
              · rw [hdel, ha]
                simp [List.range_succ, transientFail, hr0, ht0, hr1, ht1, hr2, ht2]
              · intro i d hi hok
                have : i = 0 ∨ i = 1 ∨ i = 2 := by omega
                rcases this with hi0 | hi1 | hi2
                · subst hi0; rw [hr0] at hok; exact absurd hok (by simp)
                · subst hi1; rw [hr1] at hok; exact absurd hok (by simp)
                · subst hi2; rw [hr2] at hok; exact absurd hok (by simp)
              · intro i e hi he hn
                have : i = 0 ∨ i = 1 ∨ i = 2 := by omega
                rcases this with hi0 | hi1 | hi2
                · subst hi0; rw [hr0] at he; simp at he
                  rw [← he] at hn; rw [ht0] at hn; exact absurd hn (by simp)
                · subst hi1; rw [hr1] at he; simp at he
                  rw [← he] at hn; rw [ht1] at hn; exact absurd hn (by simp)
                · subst hi2; rw [hr2] at he; simp at he
                  rw [← he] at hn; rw [ht2] at hn; exact absurd hn (by simp)

/-- C6 witness data: a backend that answers 503 Service Unavailable on the
first attempt and succeeds afterwards. -/
def resp503 : Nat → Except AuthError Unit := fun n =>
  if n = 0 then Except.error ⟨some 503, "Service Unavailable"⟩ else Except.ok ()

/-- C6 witness: a sign-in against `resp503` succeeds on the second attempt
(within the 3-attempt bound), via the theorem instantiated there. -/
theorem c6_witness :
    (signInLoop resp503).result = Except.ok () ∧ (signInLoop resp503).attempts = 1 + 1 := by
  exact (c6_auth_retry_bounded Unit resp503).2.2.2.2.1 1 () (by decide) rfl

/-- C7 counterexample data: a parsed value with both a `version` field and a
`documents` field, where `version` is the falsy empty string. -/
def c7data : JsValue := .obj [("version", .str ""), ("documents", .arr [])]

/-- C7: the claim as stated is false: `c7data` has both a `version` and a
`documents` field, yet `importBackup` rejects it, because the source guard
tests truthiness (`!data.version`), not field presence. -/
theorem c7_counterexample :
    hasField c7data "version" = true ∧
    hasField c7data "documents" = true ∧
    importBackup (some (.ok c7data)) = .rejected "Invalid backup file format" :=
  ⟨rfl, rfl, rfl⟩

/-- C7 (amended): `importBackup` resolves with the parsed value exactly when
the file read succeeds, the content parses as JSON, and the parsed value's
`version` and `documents` properties are both truthy (present and non-falsy);
otherwise it rejects (with the parse error, a TypeError for a
`null`/`undefined` parse result, or the descriptive "Invalid backup file
format"), and a failure to read the file rejects with the fixed message
"Failed to read file". -/
theorem c7_importBackup_semantics (read : Option (Except String JsValue)) :
    (∀ v, importBackup read = .resolved v ↔
      (read = some (.ok v) ∧ truthyProp v "version" = true ∧ truthyProp v "documents" = true)) ∧
    (read = none → importBackup read = .rejected "Failed to read file") := by
  cases read with
  | none =>
    refine ⟨?_, fun _ => rfl⟩
    intro v
    constructor
    · intro h; exact absurd h (by simp [importBackup])
    · rintro ⟨h, -, -⟩; exact absurd h (by simp)
  | some r =>
    cases r with
    | error m =>
      refine ⟨?_, fun h => by simp at h⟩
      intro v
      constructor
      · intro h; exact absurd h (by simp [importBackup])
      · rintro ⟨h, -, -⟩; simp at h
    | ok data =>
      refine ⟨?_, fun h => by simp at h⟩
      intro v
      constructor
      · intro h
        simp only [importBackup] at h
        split at h
        · simp at h
        · rename_i vv hv
          split at h
          · rename_i htv
            split at h
            · simp at h
            · rename_i dd hd
              split at h
              · rename_i htd
                simp only [ImportResult.resolved.injEq] at h
                subst h
                exact ⟨rfl, by simp [truthyProp, hv, htv], by simp [truthyProp, hd, htd]⟩
              · simp at h
          · simp at h
      · rintro ⟨hread, hv, hd⟩
        have hdv : data = v := by simpa using hread
        subst hdv
        unfold truthyProp at hv hd
        simp only [importBackup]
        split
        · rename_i hgv
          simp only [hgv] at hv
          exact absurd hv (by simp)
        · rename_i vv hgv
          simp only [hgv] at hv
          split
          · split
            · rename_i hgd
              simp only [hgd] at hd
              exact absurd hd (by simp)
            · rename_i dd hgd
              simp only [hgd] at hd
              split
              · rfl
              · rename_i htd
                exact absurd hd htd
          · rename_i htv
            exact absurd hv htv

/-- C7 witness: a well-formed parsed bundle resolves, via the amended
theorem instantiated at it. -/
def c7good : JsValue := .obj [("version", .str "1.0"), ("documents", .arr [])]

/-- C7 witness: the amended theorem applied to the well-formed bundle and to
the failed read. -/
theorem c7_witness :
    importBackup (some (.ok c7good)) = .resolved c7good ∧
    importBackup none = .rejected "Failed to read file" := by
  refine ⟨?_, (c7_importBackup_semantics none).2 rfl⟩
  exact ((c7_importBackup_semantics (some (.ok c7good))).1 c7good).mpr ⟨rfl, rfl, rfl⟩

/-- C8: the claim as stated is false: in an environment without `indexedDB`,
`openDatabase` does not surface the capability error synchronously — it
returns a promise rejected with the descriptive message (an asynchronous
rejection). -/
theorem c8_counterexample :
    (openDatabase ⟨false⟩ (.ok ()) ⟨none⟩).1 =
      .promise (.error "IndexedDB is not supported in this environment.") ∧
    isSyncThrow (openDatabase ⟨false⟩ (.ok ()) ⟨none⟩).1 = false :=
  ⟨rfl, rfl⟩

/-- C8 (amended): in an environment without the storage API, `openDatabase`
(and hence every asset-store operation, all of which await it) fails fast at
the first call with the descriptive capability error, delivered as a
rejection of the memoized connection promise — an asynchronous rejection,
not a synchronous throw — and the capability check is not retried: a second
call returns the same memoized rejected promise and leaves the module state
unchanged. -/
theorem c8_missing_idb_rejects_memoized (env : JsEnv) (openResult : Except String Unit)
    (h : env.hasIndexedDB = false) :
    (openDatabase env openResult ⟨none⟩).1 =
      .promise (.error "IndexedDB is not supported in this environment.") ∧
    isSyncThrow (openDatabase env openResult ⟨none⟩).1 = false ∧
    openDatabase env openResult (openDatabase env openResult ⟨none⟩).2 =
      (.promise (.error "IndexedDB is not supported in this environment."),
        (openDatabase env openResult ⟨none⟩).2) := by
  refine ⟨?_, ?_, ?_⟩ <;> simp [openDatabase, getIndexedDB, h, isSyncThrow]

/-- `inList` agrees with list membership. -/
theorem inList_iff (x : String) (l : List String) : inList x l = true ↔ x ∈ l := by
  induction l with
  | nil => simp [inList]
  | cons y ys ih => simp [inList, ih]

/-- Filtering pairs on a key predicate commutes with projecting the keys. -/
theorem map_fst_filter (pred : String → Bool) (st : List (String × String)) :
    (st.filter (fun p => pred p.1)).map Prod.fst = (st.map Prod.fst).filter pred := by
  induction st with
  | nil => rfl
  | cons p st ih => cases h : pred p.1 <;> simp [List.filter_cons, h, ih]

/-- Removing a key removes exactly that key from the auto-backup keys. -/
theorem autoKeys_lsRemove (st : List (String × String)) (k : String) :
    autoKeys (lsRemove st k) = (autoKeys st).filter (fun x => !(x == k)) := by
  unfold autoKeys lsRemove
  rw [map_fst_filter (fun x => !(x == k)) st, List.filter_filter, List.filter_filter]
  congr 1
  funext a
  rw [Bool.and_comm]

/-- Setting a fresh auto-backup key appends it to the auto-backup keys. -/
theorem autoKeys_lsSet_fresh (st : List (String × String)) (k v : String)
    (hk : isAutoKey k = true) (hfresh : k ∉ autoKeys st) :
    autoKeys (lsSet st k v) = autoKeys st ++ [k] := by
  have hany : st.any (fun p => p.1 == k) = false := by
    rw [List.any_eq_false]
    intro p hp hpk
    apply hfresh
    have hpk1 : p.1 = k := by simpa using hpk
    unfold autoKeys
    exact List.mem_filter.mpr ⟨List.mem_map.mpr ⟨p, hp, hpk1⟩, hk⟩
  simp only [lsSet, hany, Bool.false_eq_true, if_false]
  simp [autoKeys, List.filter_append, hk]

/-- Folding `removeItem` over a key list filters those keys out of the
auto-backup keys. -/
theorem autoKeys_foldl_lsRemove (R : List String) (st : List (String × String)) :
    autoKeys (R.foldl lsRemove st) = (autoKeys st).filter (fun x => !(inList x R)) := by
  induction R generalizing st with
  | nil => simp [inList]
  | cons r rs ih =>
    rw [List.foldl_cons, ih, autoKeys_lsRemove, List.filter_filter]
    congr 1
    funext a
    simp only [inList, Bool.not_or]
    rw [Bool.and_comm]

/-- A strictly smaller string is a different string. -/
theorem strLt_ne {a b : String} (h : strLt a b = true) : a ≠ b := by
  unfold strLt at h
  rw [Bool.and_eq_true] at h
  simpa using h.2

/-- `strLt` is irreflexive. -/
theorem strLt_irrefl (a : String) : strLt a a = false := by
  simp [strLt]

/-- Sorting an already strictly sorted key list is the identity. -/
theorem sortKeys_eq_self (l : List String) (hl : List.Chain' (fun a b => strLt a b = true) l) :
    sortKeys l = l := by
  induction l with
  | nil => rfl
  | cons x xs ih =>
    have hxs : List.Chain' (fun a b => strLt a b = true) xs := hl.tail
    show sortInsert x (sortKeys xs) = x :: xs
    rw [ih hxs]
    cases xs with
    | nil => rfl
    | cons y ys =>
      have hxy : strLt x y = true := (List.chain'_cons.mp hl).1
      have hle : lexLe x.data y.data = true := by
        unfold strLt at hxy
        rw [Bool.and_eq_true] at hxy
        exact hxy.1
      simp [sortInsert, hle]

/-- Filtering out the first `m` elements of a duplicate-free list leaves its
drop. -/
theorem filter_not_mem_take (l : List String) (hnd : l.Nodup) (m : Nat) :
    l.filter (fun x => !(inList x (l.take m))) = l.drop m := by
  have h1 : (l.take m).filter (fun x => !(inList x (l.take m))) = [] := by
    rw [List.filter_eq_nil_iff]
    intro a ha
    have hin : inList a (l.take m) = true := (inList_iff a (l.take m)).mpr ha
    simp [hin]
  have h2 : (l.drop m).filter (fun x => !(inList x (l.take m))) = l.drop m := by
    rw [List.filter_eq_self]
    intro a ha
    have hnot : a ∉ l.take m := fun hmem => (List.disjoint_take_drop hnd le_rfl) hmem ha
    cases hx : inList a (l.take m) with
    | false => simp
    | true => exact absurd ((inList_iff a (l.take m)).mp hx) hnot
  calc l.filter (fun x => !(inList x (l.take m)))
      = (l.take m ++ l.drop m).filter (fun x => !(inList x (l.take m))) := by
        rw [List.take_append_drop]
    _ = l.drop m := by rw [List.filter_append, h1, h2, List.nil_append]

/-- Every auto-backup key starts with the `auto_backup_` stem. -/
theorem startsWithL_append (pat rest : List Char) : startsWithL (pat ++ rest) pat = true := by
  induction pat with
  | nil => simp [startsWithL]
  | cons c cs ih => simp [startsWithL, ih]

/-- The key built by a snapshot is an auto-backup key. -/
theorem isAutoKey_autoKey (t : Nat) : isAutoKey (autoKey t) = true := by
  unfold isAutoKey autoKey
  rw [String.data_append]
  exact startsWithL_append _ _

/-- One snapshot tick keeps exactly the lexicographically largest 5
auto-backup keys: given that the keys (old ones plus the fresh one) are
strictly sorted, the surviving auto-backup keys are the final five of them
(all of them while there are at most 5). -/
theorem snapshotStep_spec (st : List (String × String)) (t : Nat) (v : String)
    (hsorted : List.Pairwise (fun a b => strLt a b = true) (autoKeys st ++ [autoKey t])) :
    autoKeys (snapshotStep st t v) =
      (autoKeys st ++ [autoKey t]).drop ((autoKeys st ++ [autoKey t]).length - 5) := by
  have hfresh : autoKey t ∉ autoKeys st := by
    intro hmem
    have h := (List.pairwise_append.mp hsorted).2.2 _ hmem (autoKey t) (by simp)
    rw [strLt_irrefl] at h
    exact absurd h (by simp)
  have h1 : autoKeys (lsSet st (autoKey t) v) = autoKeys st ++ [autoKey t] :=
    autoKeys_lsSet_fresh st _ v (isAutoKey_autoKey t) hfresh
  have hnd : (autoKeys st ++ [autoKey t]).Nodup :=
    hsorted.imp (fun h => strLt_ne h)
  have hsortid : sortKeys (autoKeys (lsSet st (autoKey t) v)) = autoKeys st ++ [autoKey t] := by
    rw [h1]
    exact sortKeys_eq_self _ hsorted.chain'
  simp only [snapshotStep]
  rw [hsortid]
  by_cases hlen : (autoKeys st ++ [autoKey t]).length > 5
  · rw [if_pos hlen, autoKeys_foldl_lsRemove, h1]
    exact filter_not_mem_take _ hnd _
  · rw [if_neg hlen, h1]
    have hlen2 : (autoKeys st).length + 1 ≤ 5 := by
      simp only [List.length_append, List.length_singleton] at hlen
      omega
    rw [show (autoKeys st ++ [autoKey t]).length - 5 = 0 from by
      simp only [List.length_append, List.length_singleton]
      omega]
    rw [List.drop_zero]

/-- C8 witness: the amended theorem applied to the concrete environment
lacking `indexedDB`. -/
theorem c8_witness :
    (openDatabase ⟨false⟩ (.ok ()) ⟨none⟩).1 =
      .promise (.error "IndexedDB is not supported in this environment.") ∧
    isSyncThrow (openDatabase ⟨false⟩ (.ok ()) ⟨none⟩).1 = false := by
  have h := c8_missing_idb_rejects_memoized ⟨false⟩ (.ok ()) rfl
  exact ⟨h.1, h.2.1⟩

/-- C3: starting from a store with no auto-backup entries, running any
sequence of auto-backup ticks whose timestamps are strictly increasing (and
whose keys are correspondingly strictly increasing in the lexicographic
order `sort()` uses — true of real `Date.now()` values, whose decimal
representations share a digit count through the year 2286) leaves exactly
the auto-backup keys of the last `min 5 n` timestamps: after every snapshot
write at most 5 entries remain, the evicted ones are always the oldest by
embedded timestamp (= insertion order), and in particular after 6 snapshots
exactly the 5 most recent remain. -/
theorem c3_auto_backup_retention (st : List (String × String)) (tvs : List (Nat × String))
    (h0 : autoKeys st = [])
    (hmono : List.Pairwise (fun a b => a < b) (tvs.map Prod.fst))
    (hkeys : List.Pairwise (fun a b => strLt (autoKey a) (autoKey b) = true) (tvs.map Prod.fst)) :
    autoKeys (runSnapshots st tvs) =
      ((tvs.map Prod.fst).drop (tvs.length - 5)).map autoKey := by
  induction tvs using List.reverseRecOn with
  | nil => simpa [runSnapshots] using h0
  | append_singleton init tv ih =>
    obtain ⟨t, v⟩ := tv
    have hmap : ((init ++ [(t, v)]).map Prod.fst) = init.map Prod.fst ++ [t] := by simp
    rw [hmap] at hmono hkeys
    obtain ⟨hk1, -, hk3⟩ := List.pairwise_append.mp hkeys
    obtain ⟨hm1, -, -⟩ := List.pairwise_append.mp hmono
    have hprev := ih hm1 hk1
    have hrun : runSnapshots st (init ++ [(t, v)]) = snapshotStep (runSnapshots st init) t v := by
      simp [runSnapshots, List.foldl_append]
    rw [hrun]
    have hsorted : List.Pairwise (fun a b => strLt a b = true)
        (autoKeys (runSnapshots st init) ++ [autoKey t]) := by
      rw [hprev]
      refine List.pairwise_append.mpr ⟨?_, by simp, ?_⟩
      · rw [List.pairwise_map]
        exact List.Pairwise.sublist (List.drop_sublist _ _) hk1
      · intro a ha b hb
        rw [List.mem_singleton] at hb
        subst hb
        rcases List.mem_map.mp ha with ⟨s, hs, rfl⟩
        exact hk3 s (List.drop_subset _ _ hs) t (by simp)
    rw [snapshotStep_spec _ _ _ hsorted, hprev, hmap]
    have hlents : (init.map Prod.fst).length = init.length := List.length_map _ _
    have hlen2 : (init ++ [(t, v)]).length = init.length + 1 := by simp
    rw [hlen2]
    rcases Nat.lt_or_ge init.length 5 with h5 | h5
    · have e1 : init.length - 5 = 0 := by omega
      have e3 : init.length + 1 - 5 = 0 := by omega
      rw [e1, e3, List.drop_zero]
      rw [show ((List.map autoKey (List.map Prod.fst init) ++ [autoKey t]).length - 5) = 0 from by
        simp only [List.length_append, List.length_map, List.length_singleton, hlents]
        omega]
      rw [List.drop_zero, List.drop_zero, List.map_append]
      rfl
    · have e2 : (((init.map Prod.fst).drop (init.length - 5)).map autoKey
          ++ [autoKey t]).length - 5 = 1 := by
        simp only [List.length_append, List.length_map, List.length_drop, List.length_singleton,
          hlents]
        omega
      rw [e2, List.drop_append_eq_append_drop]
      have hAl : (((init.map Prod.fst).drop (init.length - 5)).map autoKey).length = 5 := by
        simp only [List.length_map, List.length_drop, hlents]
        omega
      rw [hAl]
      rw [show (1 : Nat) - 5 = 0 from rfl, List.drop_zero]
      rw [List.map_drop, List.drop_drop]
      rw [List.drop_append_eq_append_drop, List.map_append]
      have e6 : init.length + 1 - 5 - (init.map Prod.fst).length = 0 := by
        rw [hlents]; omega
      have e4 : init.length + 1 - 5 = init.length - 4 := by omega
      have e5 : init.length - 5 + 1 = init.length - 4 := by omega
      rw [e6, List.drop_zero, e4, e5, ← List.map_drop]
      rfl

/-- C3 witness data: six consecutive millisecond timestamps as `Date.now()`
produces them. -/
def c3tvs : List (Nat × String) :=
  [(1700000000000, "b0"), (1700000000001, "b1"), (1700000000002, "b2"),
   (1700000000003, "b3"), (1700000000004, "b4"), (1700000000005, "b5")]

/-- C3 witness: after the 6 snapshots exactly 5 auto-backup entries remain,
and they are the keys of the 5 most recent timestamps. -/
theorem c3_witness :
    (autoKeys (runSnapshots [] c3tvs)).length = 5 ∧
    autoKeys (runSnapshots [] c3tvs) = ((c3tvs.map Prod.fst).drop 1).map autoKey := by
  have h := c3_auto_backup_retention [] c3tvs rfl (by decide) (by decide)
  refine ⟨?_, h⟩
  rw [h]
  decide

/-- Alphabet characters decode back to their index. -/
theorem b64Index_b64Char (n : Nat) (h : n < 64) : b64Index (b64Char n) = n :=
  (by decide : ∀ m, m < 64 → b64Index (b64Char m) = m) n h

/-- Alphabet characters are not the padding character. -/
theorem b64Char_ne_pad {n : Nat} (h : n < 64) : b64Char n ≠ '=' :=
  (by decide : ∀ m, m < 64 → b64Char m ≠ '=') n h

/-- No encoded character is a comma. -/
theorem b64Char_ne_comma (n : Nat) : b64Char n ≠ ',' := by
  by_cases h : n < 64
  · exact (by decide : ∀ m, m < 64 → b64Char m ≠ ',') n h
  · have h64 : b64Chars.length ≤ n := by
      have hL : b64Chars.length = 64 := by decide
      omega
    unfold b64Char
    rw [List.getD_eq_default _ _ h64]
    decide

/-- Alphabet characters are recognized by the alphabet test. -/
theorem b64IsAlpha_b64Char (n : Nat) (h : n < 64) : b64IsAlpha (b64Char n) = true :=
  (by decide : ∀ m, m < 64 → b64IsAlpha (b64Char m) = true) n h

/-- Every encoded character is an alphabet character or the padding `=`. -/
theorem b64Char_alpha_or_pad (n : Nat) : b64IsAlpha (b64Char n) = true ∨ b64Char n = '=' := by
  by_cases h : n < 64
  · exact Or.inl (b64IsAlpha_b64Char n h)
  · right
    have h64 : b64Chars.length ≤ n := by
      have hL : b64Chars.length = 64 := by decide
      omega
    unfold b64Char
    rw [List.getD_eq_default _ _ h64]

/-- A character passing the alphabet test belongs to the alphabet list. -/
theorem mem_of_b64IsAlpha {c : Char} (h : b64IsAlpha c = true) : c ∈ b64Chars := by
  unfold b64IsAlpha at h
  rcases List.any_eq_true.mp h with ⟨x, hx, hxc⟩
  have : x = c := by simpa using hxc
  exact this ▸ hx

/-- Every character of an encoded payload is an alphabet character or `=`. -/
theorem b64EncodeChunks_mem : ∀ (bs : List Nat), ∀ ch ∈ b64EncodeChunks bs,
    b64IsAlpha ch = true ∨ ch = '='
  | [] => by simp [b64EncodeChunks]
  | [a] => by
    intro ch hch
    simp only [b64EncodeChunks, List.mem_cons, List.not_mem_nil, or_false] at hch
    rcases hch with rfl | rfl | rfl | rfl
    · exact b64Char_alpha_or_pad _
    · exact b64Char_alpha_or_pad _
    · exact Or.inr rfl
    · exact Or.inr rfl
  | [a, b] => by
    intro ch hch
    simp only [b64EncodeChunks, List.mem_cons, List.not_mem_nil, or_false] at hch
    rcases hch with rfl | rfl | rfl | rfl
    · exact b64Char_alpha_or_pad _
    · exact b64Char_alpha_or_pad _
    · exact b64Char_alpha_or_pad _
    · exact Or.inr rfl
  | a :: b :: c :: rest => by
    intro ch hch
    simp only [b64EncodeChunks, List.mem_cons] at hch
    rcases hch with rfl | rfl | rfl | rfl | hmem
    · exact b64Char_alpha_or_pad _
    · exact b64Char_alpha_or_pad _
    · exact b64Char_alpha_or_pad _
    · exact b64Char_alpha_or_pad _
    · exact b64EncodeChunks_mem rest ch hmem

/-- Encoded payloads have length a multiple of 4. -/
theorem b64EncodeChunks_length_mod : ∀ (bs : List Nat), (b64EncodeChunks bs).length % 4 = 0
  | [] => rfl
  | [a] => by simp [b64EncodeChunks]
  | [a, b] => by simp [b64EncodeChunks]
  | a :: b :: c :: rest => by
    have ih := b64EncodeChunks_length_mod rest
    simp only [b64EncodeChunks, List.length_cons]
    omega

/-- A non-empty byte sequence encodes to at least one 4-character group. -/
theorem b64EncodeChunks_length_ge (bs : List Nat) (h : bs ≠ []) :
    2 ≤ (b64EncodeChunks bs).length := by
  match bs with
  | [] => exact absurd rfl h
  | [a] => simp [b64EncodeChunks]
  | [a, b] => simp [b64EncodeChunks]
  | a :: b :: c :: rest =>
    simp only [b64EncodeChunks, List.length_cons]
    omega

/-- Padding-stripping a list with a tail of length at least 2 only affects
the tail. -/
theorem stripPad_append (X Y : List Char) (hY : 2 ≤ Y.length) :
    stripPad (X ++ Y) = X ++ stripPad Y := by
  cases hYr : Y.reverse with
  | nil =>
    exfalso
    have hl : Y.length = 0 := by rw [← List.length_reverse, hYr]; rfl
    omega
  | cons a t =>
    cases t with
    | nil =>
      exfalso
      have hl : Y.length = 1 := by rw [← List.length_reverse, hYr]; rfl
      omega
    | cons b r =>
      have hXYr : (X ++ Y).reverse = a :: b :: (r ++ X.reverse) := by
        rw [List.reverse_append, hYr]
        rfl
      unfold stripPad
      rw [hXYr, hYr]
      simp only [dropPadRev]
      by_cases ha : a = '='
      · by_cases hb : b = '='
        · rw [if_pos ha, if_pos hb, if_pos ha, if_pos hb, List.reverse_append,
            List.reverse_reverse]
        · rw [if_pos ha, if_neg hb, if_pos ha, if_neg hb]
          rw [show b :: (r ++ X.reverse) = (b :: r) ++ X.reverse from rfl]
          rw [List.reverse_append, List.reverse_reverse]
      · rw [if_neg ha, if_neg ha]
        rw [show a :: b :: (r ++ X.reverse) = (a :: b :: r) ++ X.reverse from rfl]
        rw [List.reverse_append, List.reverse_reverse]

/-- Stripping a lone trailing `=` after a non-padding character. -/
theorem stripPad_two (y : Char) (hy : y ≠ '=') : stripPad [y, '='] = [y] := by
  show (dropPadRev ['=', y]).reverse = [y]
  simp only [dropPadRev]
  rw [if_pos trivial, if_neg hy]
  rfl

/-- A 4-character group ending in a non-padding character is unchanged. -/
theorem stripPad_four (w x y z : Char) (hz : z ≠ '=') :
    stripPad [w, x, y, z] = [w, x, y, z] := by
  show (dropPadRev [z, y, x, w]).reverse = [w, x, y, z]
  simp only [dropPadRev]
  rw [if_neg hz]
  rfl

/-- Stripping the padding from an encoded payload leaves the raw body. -/
theorem stripPad_encode : ∀ (bs : List Nat), stripPad (b64EncodeChunks bs) = b64EncodeRaw bs
  | [] => rfl
  | [a] => by
    show stripPad ([b64Char (a / 4), b64Char (a % 4 * 16)] ++ ['=', '=']) = _
    rw [stripPad_append _ _ (by decide)]
    rw [show stripPad ['=', '='] = [] from rfl, List.append_nil]
    rfl
  | [a, b] => by
    show stripPad ([b64Char (a / 4), b64Char (a % 4 * 16 + b / 16)]
      ++ [b64Char (b % 16 * 4), '=']) = _
    rw [stripPad_append _ _ (by simp)]
    rw [stripPad_two _ (b64Char_ne_pad (by omega : b % 16 * 4 < 64))]
    rfl
  | a :: b :: c :: rest => by
    by_cases hr : rest = []
    · subst hr
      show stripPad [b64Char (a / 4), b64Char (a % 4 * 16 + b / 16),
        b64Char (b % 16 * 4 + c / 64), b64Char (c % 64)] = _
      rw [stripPad_four _ _ _ _ (b64Char_ne_pad (by omega : c % 64 < 64))]
      rfl
    · show stripPad ([b64Char (a / 4), b64Char (a % 4 * 16 + b / 16),
        b64Char (b % 16 * 4 + c / 64), b64Char (c % 64)] ++ b64EncodeChunks rest) = _
      rw [stripPad_append _ _ (b64EncodeChunks_length_ge rest hr)]
      rw [stripPad_encode rest]
      rfl

/-- The raw encoded body never has length 1 mod 4. -/
theorem b64EncodeRaw_length_mod : ∀ (bs : List Nat), (b64EncodeRaw bs).length % 4 ≠ 1
  | [] => by simp [b64EncodeRaw]
  | [a] => by simp [b64EncodeRaw]
  | [a, b] => by simp [b64EncodeRaw]
  | a :: b :: c :: rest => by
    have ih := b64EncodeRaw_length_mod rest
    simp only [b64EncodeRaw, List.length_cons]
    omega

/-- Every character of the raw encoded body of genuine bytes is an alphabet
character. -/
theorem b64EncodeRaw_alpha : ∀ (bs : List Nat), (∀ x ∈ bs, x < 256) →
    (b64EncodeRaw bs).all b64IsAlpha = true
  | [], _ => rfl
  | [a], h => by
    have ha : a < 256 := h a (by simp)
    simp [b64EncodeRaw, b64IsAlpha_b64Char _ (by omega : a / 4 < 64),
      b64IsAlpha_b64Char _ (by omega : a % 4 * 16 < 64)]
  | [a, b], h => by
    have ha : a < 256 := h a (by simp)
    have hb : b < 256 := h b (by simp)
    simp [b64EncodeRaw, b64IsAlpha_b64Char _ (by omega : a / 4 < 64),
      b64IsAlpha_b64Char _ (by omega : a % 4 * 16 + b / 16 < 64),
      b64IsAlpha_b64Char _ (by omega : b % 16 * 4 < 64)]
  | a :: b :: c :: rest, h => by
    have ha : a < 256 := h a (by simp)
    have hb : b < 256 := h b (by simp)
    have hc : c < 256 := h c (by simp)
    have ih := b64EncodeRaw_alpha rest (fun x hx => h x (by simp [hx]))
    simp [b64EncodeRaw, b64IsAlpha_b64Char _ (by omega : a / 4 < 64),
      b64IsAlpha_b64Char _ (by omega : a % 4 * 16 + b / 16 < 64),
      b64IsAlpha_b64Char _ (by omega : b % 16 * 4 + c / 64 < 64),
      b64IsAlpha_b64Char _ (by omega : c % 64 < 64), ih]

/-- Decoding the raw body recovers the bytes. -/
theorem decodeRaw_encodeRaw : ∀ (bs : List Nat), (∀ x ∈ bs, x < 256) →
    decodeRaw (b64EncodeRaw bs) = bs
  | [], _ => rfl
  | [a], h => by
    have ha : a < 256 := h a (by simp)
    show decodeRaw [b64Char (a / 4), b64Char (a % 4 * 16)] = [a]
    simp only [decodeRaw]
    rw [b64Index_b64Char _ (by omega : a / 4 < 64),
      b64Index_b64Char _ (by omega : a % 4 * 16 < 64)]
    rw [show a / 4 * 4 + a % 4 * 16 / 16 = a from by omega]
  | [a, b], h => by
    have ha : a < 256 := h a (by simp)
    have hb : b < 256 := h b (by simp)
    show decodeRaw
      [b64Char (a / 4), b64Char (a % 4 * 16 + b / 16), b64Char (b % 16 * 4)] = [a, b]
    simp only [decodeRaw]
    rw [b64Index_b64Char _ (by omega : a / 4 < 64),
      b64Index_b64Char _ (by omega : a % 4 * 16 + b / 16 < 64),
      b64Index_b64Char _ (by omega : b % 16 * 4 < 64)]
    rw [show a / 4 * 4 + (a % 4 * 16 + b / 16) / 16 = a from by omega,
      show (a % 4 * 16 + b / 16) % 16 * 16 + b % 16 * 4 / 4 = b from by omega]
  | a :: b :: c :: rest, h => by
    have ha : a < 256 := h a (by simp)
    have hb : b < 256 := h b (by simp)
    have hc : c < 256 := h c (by simp)
    have ih := decodeRaw_encodeRaw rest (fun x hx => h x (by simp [hx]))
    show decodeRaw (b64Char (a / 4) :: b64Char (a % 4 * 16 + b / 16)
      :: b64Char (b % 16 * 4 + c / 64) :: b64Char (c % 64) :: b64EncodeRaw rest)
      = a :: b :: c :: rest
    simp only [decodeRaw]
    rw [b64Index_b64Char _ (by omega : a / 4 < 64),
      b64Index_b64Char _ (by omega : a % 4 * 16 + b / 16 < 64),
      b64Index_b64Char _ (by omega : b % 16 * 4 + c / 64 < 64),
      b64Index_b64Char _ (by omega : c % 64 < 64)]
    rw [ih]
    rw [show a / 4 * 4 + (a % 4 * 16 + b / 16) / 16 = a from by omega,
      show (a % 4 * 16 + b / 16) % 16 * 16 + (b % 16 * 4 + c / 64) / 4 = b from by omega,
      show (b % 16 * 4 + c / 64) % 4 * 64 + c % 64 = c from by omega]

/-- `atob` inverts the base64 encoding, byte for byte. -/
theorem atob_b64EncodeChunks (bs : List Nat) (h : ∀ x ∈ bs, x < 256) :
    atobModel (b64EncodeChunks bs) = some bs := by
  have hA : (b64EncodeChunks bs).filter (fun c => !asciiWhitespace c) = b64EncodeChunks bs := by
    rw [List.filter_eq_self]
    intro c hc
    rcases b64EncodeChunks_mem bs c hc with h1 | rfl
    · have hmem := mem_of_b64IsAlpha h1
      have hws : asciiWhitespace c = false :=
        (by decide : ∀ x ∈ b64Chars, asciiWhitespace x = false) c hmem
      simp [hws]
    · decide
  simp only [atobModel]
  rw [hA, if_pos (b64EncodeChunks_length_mod bs), stripPad_encode bs]
  rw [if_neg (b64EncodeRaw_length_mod bs), if_pos (b64EncodeRaw_alpha bs h)]
  rw [decodeRaw_encodeRaw bs h]

/-- No character of an encoded payload is a comma. -/
theorem b64EncodeChunks_ne_comma : ∀ (bs : List Nat), ∀ ch ∈ b64EncodeChunks bs, ch ≠ ','
  | [] => by simp [b64EncodeChunks]
  | [a] => by
    intro ch hch
    simp only [b64EncodeChunks, List.mem_cons, List.not_mem_nil, or_false] at hch
    rcases hch with rfl | rfl | rfl | rfl
    · exact b64Char_ne_comma _
    · exact b64Char_ne_comma _
    · decide
    · decide
  | [a, b] => by
    intro ch hch
    simp only [b64EncodeChunks, List.mem_cons, List.not_mem_nil, or_false] at hch
    rcases hch with rfl | rfl | rfl | rfl
    · exact b64Char_ne_comma _
    · exact b64Char_ne_comma _
    · exact b64Char_ne_comma _
    · decide
  | a :: b :: c :: rest => by
    intro ch hch
    simp only [b64EncodeChunks, List.mem_cons] at hch
    rcases hch with rfl | rfl | rfl | rfl | hmem
    · exact b64Char_ne_comma _
    · exact b64Char_ne_comma _
    · exact b64Char_ne_comma _
    · exact b64Char_ne_comma _
    · exact b64EncodeChunks_ne_comma rest ch hmem

/-- `split(",")` at the first comma, when the head part is comma-free. -/
theorem splitOnComma_append (xs ys : List Char) (hx : ',' ∉ xs) :
    splitOnComma (xs ++ ',' :: ys) = xs :: splitOnComma ys := by
  induction xs with
  | nil => simp [splitOnComma]
  | cons c cs ih =>
    have hc : c ≠ ',' := fun h => hx (h ▸ List.mem_cons_self _ _)
    have hcs : ',' ∉ cs := fun h => hx (List.mem_cons_of_mem _ h)
    simp only [List.cons_append, splitOnComma, if_neg hc, List.append_eq]
    rw [ih hcs]

/-- `split(",")` of a comma-free string is that one part. -/
theorem splitOnComma_no_comma (xs : List Char) (hx : ',' ∉ xs) :
    splitOnComma xs = [xs] := by
  induction xs with
  | nil => rfl
  | cons c cs ih =>
    have hc : c ≠ ',' := fun h => hx (h ▸ List.mem_cons_self _ _)
    simp only [splitOnComma, if_neg hc]
    rw [ih (fun h => hx (List.mem_cons_of_mem _ h))]

/-- A pattern case-insensitively starts itself followed by anything. -/
theorem ciStartsWith_append (pat rest : List Char) : ciStartsWith (pat ++ rest) pat = true := by
  induction pat with
  | nil => simp [ciStartsWith]
  | cons c cs ih => simp [ciStartsWith, ciEq, ih]

/-- A pattern case-insensitively ends anything followed by itself. -/
theorem ciEndsWith_append (t pat : List Char) : ciEndsWith (t ++ pat) pat = true := by
  unfold ciEndsWith
  rw [List.reverse_append]
  exact ciStartsWith_append _ _

/-- The scan finds a non-empty pattern sitting at the front. -/
theorem findCiRest_self (pat s : List Char) (hp : pat ≠ []) :
    findCiRest pat (pat ++ s) = some s := by
  cases pat with
  | nil => exact absurd rfl hp
  | cons p ps =>
    have hs : ciStartsWith (p :: (ps ++ s)) (p :: ps) = true := by
      rw [← List.cons_append]
      exact ciStartsWith_append _ _
    rw [List.cons_append, findCiRest, if_pos hs]
    rw [← List.cons_append]
    rw [show ((p :: ps) ++ s).drop (p :: ps).length = s from List.drop_left _ _]

/-- Group 1 of the MIME regex on a meta part the encoder produced is exactly
the blob's type. -/
theorem execMimeRegex_encode (t : List Char) :
    execMimeRegex ("data:".data ++ t ++ ";base64".data) = some t := by
  unfold execMimeRegex
  rw [List.append_assoc, findCiRest_self _ _ (by decide)]
  show (if ciEndsWith (t ++ ";base64".data) ";base64".data = true then
      some (List.take ((t ++ ";base64".data).length - 7) (t ++ ";base64".data))
    else some (t ++ ";base64".data)) = some t
  rw [if_pos (ciEndsWith_append t _)]
  have hlen7 : (t ++ ";base64".data).length - 7 = t.length := by
    rw [List.length_append, show (";base64".data : List Char).length = 7 from rfl]
    omega
  rw [hlen7, List.take_left]

/-- Bytes below 256 pass through the `Uint8Array` wrap unchanged. -/
theorem map_mod256_id (l : List Nat) (h : ∀ x ∈ l, x < 256) :
    l.map (fun x => x % 256) = l := by
  induction l with
  | nil => rfl
  | cons a l ih =>
    have ha := h a (by simp)
    simp [Nat.mod_eq_of_lt ha, ih (fun x hx => h x (by simp [hx]))]

/-- Decoding an encoded blob with a comma-free type: the decode succeeds,
the bytes come back exactly, and the type is the original type run through
the decoder's default (for an empty type) and the platform `Blob`
normalization. -/
theorem dataUrlToBlob_blobToDataUrl (b : Blob) (hbytes : ∀ x ∈ b.bytes, x < 256)
    (hcomma : ',' ∉ b.type.data) :
    dataUrlToBlob (blobToDataUrl b) =
      some ⟨b.bytes,
        normalizeBlobType (if b.type = "" then "application/octet-stream" else b.type)⟩ := by
  have hurl : blobToDataUrl b
      = ("data:".data ++ b.type.data ++ ";base64".data) ++ ',' :: b64EncodeChunks b.bytes := by
    unfold blobToDataUrl
    rw [show (";base64,".data : List Char) = ";base64".data ++ [','] from rfl]
    simp [List.append_assoc]
  have hmeta_nc : ',' ∉ ("data:".data ++ b.type.data ++ ";base64".data) := by
    intro hmem
    rcases List.mem_append.mp hmem with h | h
    · rcases List.mem_append.mp h with h1 | h1
      · exact absurd h1 (by decide)
      · exact hcomma h1
    · exact absurd h (by decide)
  have henc_nc : ',' ∉ b64EncodeChunks b.bytes := fun hmem =>
    (b64EncodeChunks_ne_comma b.bytes ',' hmem) rfl
  have hsplit : splitOnComma (blobToDataUrl b)
      = [("data:".data ++ b.type.data ++ ";base64".data), b64EncodeChunks b.bytes] := by
    rw [hurl, splitOnComma_append _ _ hmeta_nc, splitOnComma_no_comma _ henc_nc]
  simp only [dataUrlToBlob]
  rw [hsplit]
  simp only [List.getD_cons_zero, List.getD_cons_succ]
  rw [execMimeRegex_encode b.type.data]
  rw [atob_b64EncodeChunks b.bytes hbytes]
  simp only [Option.map_some']
  rw [map_mod256_id b.bytes hbytes]
  by_cases ht : b.type = ""
  · simp [ht]
  · have hne : b.type.data.isEmpty = false := by
      cases htd : b.type.data with
      | nil =>
        exact absurd (show b.type = "" from congrArg String.mk htd) ht
      | cons c cs => rfl
    simp only [hne, Bool.false_eq_true, if_false, if_neg ht]

/-- C9: the claim as stated is false, in two ways.  A blob with an empty
MIME type does not round-trip to an equal type — the decoder's default
makes it `application/octet-stream`.  And a blob whose type contains a
comma (which the platform `Blob` constructor accepts: every character of
`"a,b"` is printable ASCII, so `normalizeBlobType` keeps it) does not
round-trip at all: `split(",")` splits inside the type, the data part
becomes `b;base64`, and `atob` throws on it, so no blob of equal size is
produced. -/
theorem c9_counterexample :
    dataUrlToBlob (blobToDataUrl ⟨[], ""⟩) = some ⟨[], "application/octet-stream"⟩ ∧
    "application/octet-stream" ≠ Blob.type ⟨[], ""⟩ ∧
    normalizeBlobType "a,b" = "a,b" ∧
    dataUrlToBlob (blobToDataUrl ⟨[], "a,b"⟩) = none := by
  decide

/-- C9 (amended): for a blob with byte values below 256 and a comma-free
MIME type, encoding it to a data URL and decoding that string back succeeds
and yields a blob whose size equals the original blob's size; and when the
type is moreover non-empty and normalized (as the platform `Blob`
constructor leaves it), the decoded blob's MIME type equals the original.
(A blob with an empty type instead decodes as `application/octet-stream`,
and for a comma-containing type — which the platform permits — the decode
throws; see the counterexample.) -/
theorem c9_dataUrl_roundtrip (b : Blob) (hbytes : ∀ x ∈ b.bytes, x < 256)
    (hcomma : ',' ∉ b.type.data) :
    (dataUrlToBlob (blobToDataUrl b)).map Blob.size = some b.size ∧
    (b.type ≠ "" → normalizeBlobType b.type = b.type →
      (dataUrlToBlob (blobToDataUrl b)).map Blob.type = some b.type) := by
  rw [dataUrlToBlob_blobToDataUrl b hbytes hcomma]
  constructor
  · rfl
  · intro ht hnorm
    simp only [Option.map_some', if_neg ht]
    rw [hnorm]

/-- C9 witness: a concrete two-byte `text/plain` blob round-trips with equal
size and type, via the amended theorem instantiated there. -/
theorem c9_witness :
    (dataUrlToBlob (blobToDataUrl ⟨[72, 105], "text/plain"⟩)).map Blob.size
        = some (Blob.size ⟨[72, 105], "text/plain"⟩) ∧
    (dataUrlToBlob (blobToDataUrl ⟨[72, 105], "text/plain"⟩)).map Blob.type
        = some "text/plain" := by
  have h := c9_dataUrl_roundtrip ⟨[72, 105], "text/plain"⟩ (by decide) (by decide)
  exact ⟨h.1, h.2 (by decide) (by decide)⟩

end DocBuilder
